import Mathlib

/-!
Verification of the minipool-withdrawal orchestration flow
(`withdrawMinipool`, src/rocketpool-cli/minipool/withdraw.go) against its
natural-language specification.

The Go function is shallowly embedded: every external collaborator (chain
queries, transaction submission, the validated prompt) becomes an oracle
field of `Env`, the per-index status channels plus the shared unbuffered
error channel of the fan-out/fan-in phase become an explicit scheduler
parameter resolving the `select` nondeterminism, and Go runtime panics
(slicing an empty string, out-of-range list indexing) are modelled by
`Option`, with `none` standing for a panic.
-/

set_option maxHeartbeats 1000000

namespace Withdraw

/-- Chain account identifier (stand-in for go-ethereum `common.Address`;
only identity and rendering matter to the orchestrator). -/
abbrev Address := Nat

/-- Rendering of an address used inside messages (stand-in for
`common.Address.Hex`). -/
def addrHex (a : Address) : String := toString a

/-- Minipool lifecycle states. The enum constants live in the rocketpool
minipool library, outside the shown sources; the variant set is taken from
spec section 3 (`{Initialized, Staking, Withdrawable, Withdrawn, TimedOut,
Dissolved}`), which covers the three constants `INITIALIZED`, `WITHDRAWN`,
`TIMED_OUT` referenced by withdraw.go line 84. -/
inductive MinipoolState where
  | Initialized
  | Prelaunch
  | Staking
  | Withdrawable
  | Withdrawn
  | TimedOut
  | Dissolved
  deriving DecidableEq

/-- `minipool.NodeStatus` as consumed by withdraw.go: the lifecycle status
(line 84), the deposit flag (line 84), the address (lines 102, 112, 117) and
the display label (line 102). -/
structure NodeStatus where
  address : Address
  status : MinipoolState
  statusType : String
  depositExists : Bool
  deriving DecidableEq

/-- The `NodeWithdrawal` event struct (withdraw.go lines 22-28); big.Int
amounts become `Int`. -/
structure NodeWithdrawal where
  toAddr : Address
  etherAmount : Int
  rethAmount : Int
  rplAmount : Int
  created : Int
  deriving DecidableEq

/-- External collaborators of the orchestrator (spec section 6), supplied as
oracles; `Txor` and `Receipt` are opaque to the core. `sched` resolves the
nondeterminism of the `select` at lines 82-89: at receive iteration `mi`,
`sched mi = some j` means the select rendezvouses with the blocked error
send of the j-th failing goroutine, `none` means it takes the status
channel when that is possible. `getTransactor` is indexed by call number
(one call per loop iteration, line 133). `response` is the string returned
by the validated prompt (line 105); the prompt re-prompts until the
validation pattern matches, so theorems about the selection phase assume
`acceptedResponse`. -/
structure Env (Txor Receipt : Type) where
  withdrawalsAllowed : Except String Bool
  minipoolAddresses : Except String (List Address)
  getNodeStatus : Address → Except String NodeStatus
  sched : Nat → Option Nat
  response : String
  getTransactor : Nat → Except String Txor
  executeTx : Txor → Address → Except String Receipt
  getEvents : Receipt → Address → Except String (List NodeWithdrawal)

/-- The error of a failed query, if any. -/
def exceptErr {ε α : Type} : Except ε α → Option ε
  | Except.error e => some e
  | Except.ok _ => none

/-- Errors of all failing status goroutines (lines 66-77): each failing
goroutine blocks on its send into the shared unbuffered
`nodeStatusErrorChannel`, so every one of them is available to rendezvous
with any receive iteration of the collection loop. No error is consumed
before the loop returns, hence the pool is constant throughout. -/
def errPool (get : Address → Except String NodeStatus) (addrs : List Address) : List String :=
  addrs.filterMap (fun a => exceptErr (get a))

/-- The receive loop at lines 81-90: iteration `mi` selects between
`nodeStatusChannel[mi]` (ready iff goroutine `mi` succeeded) and the shared
error channel (ready iff some goroutine failed).  If goroutine `mi` failed
its own channel never fires, so an error must be taken; otherwise the
scheduler may still divert the iteration to a pending error.  An invalid
scheduler choice (index outside the error pool) falls back to the
deterministic behaviour. -/
def collectAux (get : Address → Except String NodeStatus) (pool : List String)
    (sched : Nat → Option Nat) : Nat → List Address → Except String (List NodeStatus)
  | _, [] => Except.ok []
  | mi, a :: rest =>
    match get a with
    | Except.error e =>
      match sched mi with
      | some j => Except.error ((pool[j]?).getD e)
      | none => Except.error e
    | Except.ok s =>
      match sched mi with
      | some j =>
        match pool[j]? with
        | some e => Except.error e
        | none => (collectAux get pool sched (mi + 1) rest).map (fun l => s :: l)
      | none => (collectAux get pool sched (mi + 1) rest).map (fun l => s :: l)

/-- The status-collection phase (lines 66-90), fan-out plus ordered
fan-in.  withdraw.go fuses collection with the eligibility filter; the
embedding returns the collected statuses (in input order) and filters
separately, which agrees with the source because on error nothing is
delivered to later phases at all. -/
def collectStatuses (get : Address → Except String NodeStatus) (sched : Nat → Option Nat)
    (addrs : List Address) : Except String (List NodeStatus) :=
  collectAux get (errPool get addrs) sched 0 addrs

/-- The eligibility predicate of line 84:
`(status == INITIALIZED || status == WITHDRAWN || status == TIMED_OUT) && depositExists`. -/
def isWithdrawable (s : NodeStatus) : Bool :=
  decide ((s.status = MinipoolState.Initialized ∨ s.status = MinipoolState.Withdrawn ∨
      s.status = MinipoolState.TimedOut) ∧ s.depositExists = true)

/-- The withdrawable subset, in collection (= input) order (lines 80-90). -/
def filterWithdrawable (sts : List NodeStatus) : List NodeStatus :=
  sts.filter isWithdrawable

/-- ASCII digit of `d` (for `d < 10`). -/
def digitChar (d : Nat) : Char := Char.ofNat (48 + d)

/-- Fuel-driven decimal digit expansion, most significant digit first. -/
def itoaAux : Nat → Nat → List Char
  | 0, _ => []
  | fuel + 1, n => if n < 10 then [digitChar n] else itoaAux fuel (n / 10) ++ [digitChar (n % 10)]

/-- Decimal rendering of a natural number, the model of `strconv.Itoa` on
the menu indices `mi + 1` (line 103). -/
def itoa (n : Nat) : String := ⟨itoaAux (n + 1) n⟩

/-- ASCII decimal digit test. -/
def isDigitChar (c : Char) : Bool := decide (48 ≤ c.toNat ∧ c.toNat ≤ 57)

/-- Value of a most-significant-first digit string. -/
def digitsVal (cs : List Char) : Nat := cs.foldl (fun acc c => acc * 10 + (c.toNat - 48)) 0

/-- `strconv.Atoi` on ASCII input: `none` models the error return. -/
def goAtoiOk (s : String) : Option Int :=
  match s.data with
  | [] => none
  | c :: rest =>
    if c = '-' then
      if rest ≠ [] ∧ rest.all isDigitChar then some (-(digitsVal rest : Int)) else none
    else if c = '+' then
      if rest ≠ [] ∧ rest.all isDigitChar then some ((digitsVal rest : Int)) else none
    else if (c :: rest).all isDigitChar then some ((digitsVal (c :: rest) : Int)) else none

/-- Line 116: `index, _ := strconv.Atoi(response)` - the error is ignored
and the value is 0 when parsing fails. -/
def goAtoi (s : String) : Int := (goAtoiOk s).getD 0

/-- ASCII lowering, the model of `strings.ToLower` and of `(?i)` matching
on the ASCII strings this flow handles. -/
def charToLower (c : Char) : Char :=
  if 65 ≤ c.toNat ∧ c.toNat ≤ 90 then Char.ofNat (c.toNat + 32) else c

/-- `strings.ToLower` on ASCII strings. -/
def stringToLower (s : String) : String := ⟨s.data.map charToLower⟩

/-- The validation pattern of line 105, `(?i)^(1|...|n|a|all)$`, built over
the options `strconv.Itoa(mi+1)` for the `n` filtered statuses: a response
is accepted iff it equals one of the numeric options exactly (digits have
no case) or is a case variant of `a` or `all`. -/
def acceptedResponse (n : Nat) (r : String) : Bool :=
  (List.range n).any (fun i => decide (r = itoa (i + 1))) ||
    decide (stringToLower r = "a") || decide (stringToLower r = "all")

/-- Go slice indexing `l[i]` on a signed index: `none` models the
out-of-range panic. -/
def idxGet {α : Type} (l : List α) (i : Int) : Option α :=
  if h : 0 ≤ i ∧ i.toNat < l.length then some (l.get ⟨i.toNat, h.2⟩) else none

/-- Resolution of the operator response into the withdrawal address list
(lines 108-118).  `none` models a Go runtime panic: `response[:1]` on an
empty response, or `withdrawableMinipools[index-1]` out of range. -/
def resolveAddresses (w : List NodeStatus) (response : String) : Option (List Address) :=
  match response.data with
  | [] => none
  | c :: _ =>
    if charToLower c = 'a' then
      some ((w.filter (fun s => decide ¬(s.status = MinipoolState.Initialized))).map
        (fun s => s.address))
    else
      match idxGet w (goAtoi response - 1) with
      | none => none
      | some s => some [s.address]

/-- Per-address outcome of the transaction loop (the spec's
`WithdrawalOutcome`): a decoded event on success, the recorded error
message on failure. -/
inductive Outcome where
  | success (addr : Address) (ev : NodeWithdrawal)
  | failure (addr : Address) (msg : String)
  deriving DecidableEq

/-- The recorded error of an outcome, if any. -/
def outcomeError : Outcome → Option String
  | Outcome.success _ _ => none
  | Outcome.failure _ m => some m

/-- The address an outcome belongs to. -/
def outcomeAddr : Outcome → Address
  | Outcome.success a _ => a
  | Outcome.failure a _ => a

/-- One iteration of the loop at lines 129-162: acquire a transactor
(line 133), submit the withdrawal transaction (line 139), decode the
`NodeWithdrawal` event (lines 144-149).  Each failure branch records
exactly the message the Go code appends to `withdrawErrors`. -/
def processAddress {T R : Type} (env : Env T R) (mi : Nat) (addr : Address) : Outcome :=
  match env.getTransactor mi with
  | Except.error e =>
    Outcome.failure addr ("Error creating transactor for minipool " ++ addrHex addr ++ ": " ++ e)
  | Except.ok txor =>
    match env.executeTx txor addr with
    | Except.error e =>
      Outcome.failure addr ("Error withdrawing deposit from minipool " ++ addrHex addr ++ ": " ++ e)
    | Except.ok receipt =>
      match env.getEvents receipt addr with
      | Except.error e =>
        Outcome.failure addr
          ("Error retrieving node deposit withdrawal event for minipool " ++ addrHex addr ++ ": " ++ e)
      | Except.ok [] =>
        Outcome.failure addr ("Could not retrieve node deposit withdrawal event for minipool " ++ addrHex addr)
      | Except.ok (ev :: _) => Outcome.success addr ev

/-- The sequential transaction loop (lines 129-162), one outcome per
selected address, in list order. -/
def txLoop {T R : Type} (env : Env T R) : Nat → List Address → List Outcome
  | _, [] => []
  | mi, a :: rest => processAddress env mi a :: txLoop env (mi + 1) rest

/-- The header seeded into `withdrawErrors` at line 128. -/
def withdrawErrorsHeader : String := "Error withdrawing deposits from one or more minipools:"

/-- The `withdrawErrors` accumulation of lines 128-162: each failing
iteration appends its message, successes append nothing. -/
def withdrawErrorsAux {T R : Type} (env : Env T R) : Nat → List Address → List String → List String
  | _, [], errs => errs
  | mi, a :: rest, errs =>
    match outcomeError (processAddress env mi a) with
    | some m => withdrawErrorsAux env (mi + 1) rest (errs ++ [m])
    | none => withdrawErrorsAux env (mi + 1) rest errs

/-- Lines 128 and 165-166: the loop's combined result - an error joining
all recorded messages when any iteration failed, success otherwise. -/
def runTxPhase {T R : Type} (env : Env T R) (addrs : List Address) : Except String Unit :=
  let errs := withdrawErrorsAux env 0 addrs [withdrawErrorsHeader]
  if errs.length > 1 then Except.error (String.intercalate "\n" errs) else Except.ok ()

/-- Observable behaviour of one invocation: the informational lines printed
before the transaction loop, the per-address outcomes, and the returned
result.  (Progress lines inside the transaction loop report the per-address
outcomes already carried in `outcomes`; their floating-point amount
formatting is not modelled.) -/
structure RunOut where
  output : List String
  outcomes : List Outcome
  result : Except String Unit

/-- Selection and execution (lines 92-166), entered with the collected
statuses: filter (line 84 predicate, applied during collection), the empty
check at lines 93-96, response resolution at lines 108-118, the empty check
at lines 122-125, then the transaction loop.  `none` models a panic inside
resolution. -/
def selectionPhase {T R : Type} (env : Env T R) (statuses : List NodeStatus) : Option RunOut :=
  let withdrawable := filterWithdrawable statuses
  if withdrawable.length = 0 then
    some ⟨["No minipools are currently available for withdrawal"], [], Except.ok ()⟩
  else
    match resolveAddresses withdrawable env.response with
    | none => none
    | some waddrs =>
      if waddrs.length = 0 then
        some ⟨["No minipools to withdraw"], [], Except.ok ()⟩
      else
        some ⟨[], txLoop env 0 waddrs, runTxPhase env waddrs⟩

/-- The whole `withdrawMinipool` flow (lines 48-166): eligibility gate
(lines 48-55, note the wrapped error message of line 51), address lookup
(lines 58-62, error returned as-is), status collection (lines 66-90, error
returned as-is at line 88), then selection and execution. -/
def withdrawMinipool {T R : Type} (env : Env T R) : Option RunOut :=
  match env.withdrawalsAllowed with
  | Except.error e =>
    some ⟨[], [], Except.error ("Error checking node withdrawals enabled status: " ++ e)⟩
  | Except.ok false =>
    some ⟨["Node withdrawals are currently disabled in Rocket Pool"], [], Except.ok ()⟩
  | Except.ok true =>
    match env.minipoolAddresses with
    | Except.error e => some ⟨[], [], Except.error e⟩
    | Except.ok addrs =>
      match collectStatuses env.getNodeStatus env.sched addrs with
      | Except.error e => some ⟨[], [], Except.error e⟩
      | Except.ok statuses => selectionPhase env statuses

/-! ### Decimal rendering and parsing lemmas -/

theorem digitChar_toNat {d : Nat} (h : d < 10) : (digitChar d).toNat = 48 + d := by
  interval_cases d <;> decide

theorem isDigitChar_digitChar {d : Nat} (h : d < 10) : isDigitChar (digitChar d) = true := by
  interval_cases d <;> decide

theorem itoaAux_ne_nil {fuel n : Nat} (h : n < fuel) : itoaAux fuel n ≠ [] := by
  cases fuel with
  | zero => omega
  | succ fuel =>
    simp only [itoaAux]
    by_cases h10 : n < 10
    · simp [h10]
    · simp [h10]

theorem itoaAux_all_digits {fuel : Nat} : ∀ {n : Nat}, n < fuel →
    (itoaAux fuel n).all isDigitChar = true := by
  induction fuel with
  | zero => intro n h; omega
  | succ fuel ih =>
    intro n h
    simp only [itoaAux]
    by_cases h10 : n < 10
    · simp [h10, isDigitChar_digitChar h10]
    · have hdiv : n / 10 < n := Nat.div_lt_self (by omega) (by omega)
      have hfuel : n / 10 < fuel := by omega
      simp [h10, List.all_append, ih hfuel, isDigitChar_digitChar (Nat.mod_lt n (by omega))]

theorem digitsVal_append_singleton (cs : List Char) (c : Char) :
    digitsVal (cs ++ [c]) = digitsVal cs * 10 + (c.toNat - 48) := by
  simp [digitsVal, List.foldl_append]

theorem digitsVal_itoaAux {fuel : Nat} : ∀ {n : Nat}, n < fuel →
    digitsVal (itoaAux fuel n) = n := by
  induction fuel with
  | zero => intro n h; omega
  | succ fuel ih =>
    intro n h
    simp only [itoaAux]
    by_cases h10 : n < 10
    · simp only [h10, if_true]
      have := digitChar_toNat h10
      simp [digitsVal, this]
    · have hdiv : n / 10 < n := Nat.div_lt_self (by omega) (by omega)
      have hfuel : n / 10 < fuel := by omega
      have hmod : n % 10 < 10 := Nat.mod_lt n (by omega)
      simp only [h10, if_false, if_neg h10]
      rw [digitsVal_append_singleton, ih hfuel, digitChar_toNat hmod]
      omega

theorem itoa_data : ∀ n : Nat, (itoa n).data = itoaAux (n + 1) n := fun _ => rfl

theorem itoa_ne_empty (n : Nat) : itoa n ≠ "" := by
  intro h
  have : (itoa n).data = ("" : String).data := by rw [h]
  rw [itoa_data] at this
  exact itoaAux_ne_nil (Nat.lt_succ_self n) this

theorem isDigitChar_ne_dash {c : Char} (h : isDigitChar c = true) : ¬(c = '-') := by
  intro he; subst he; simp [isDigitChar] at h

theorem isDigitChar_ne_plus {c : Char} (h : isDigitChar c = true) : ¬(c = '+') := by
  intro he; subst he; simp [isDigitChar] at h

theorem charToLower_digit_ne_a {c : Char} (h : isDigitChar c = true) : charToLower c ≠ 'a' := by
  simp only [isDigitChar, decide_eq_true_eq] at h
  intro he
  unfold charToLower at he
  by_cases hc : 65 ≤ c.toNat ∧ c.toNat ≤ 90
  · omega
  · rw [if_neg hc] at he
    have : c.toNat = ('a' : Char).toNat := by rw [he]
    simp at this
    omega

theorem goAtoiOk_itoa (k : Nat) : goAtoiOk (itoa k) = some (k : Int) := by
  have hlt : k < k + 1 := Nat.lt_succ_self k
  have hne := itoaAux_ne_nil hlt
  have hall := itoaAux_all_digits hlt
  have hval := digitsVal_itoaAux hlt
  cases hd : itoaAux (k + 1) k with
  | nil => exact absurd hd hne
  | cons c rest =>
    rw [hd] at hall hval
    have hc : isDigitChar c = true := by
      have := List.all_eq_true.mp hall c (by simp)
      simpa using this
    simp only [goAtoiOk, itoa_data, hd]
    rw [if_neg (isDigitChar_ne_dash hc), if_neg (isDigitChar_ne_plus hc), if_pos hall, hval]

theorem goAtoi_itoa (k : Nat) : goAtoi (itoa k) = (k : Int) := by
  simp [goAtoi, goAtoiOk_itoa]

theorem itoa_head_digit {k : Nat} {c : Char} {rest : List Char}
    (h : (itoa k).data = c :: rest) : isDigitChar c = true := by
  have hall := itoaAux_all_digits (Nat.lt_succ_self k)
  rw [itoa_data] at h
  rw [h] at hall
  have := List.all_eq_true.mp hall c (by simp)
  simpa using this

/-! ### Lowering lemmas -/

theorem stringToLower_eq_a {r : String} (h : stringToLower r = "a") :
    ∃ c, r.data = [c] ∧ charToLower c = 'a' := by
  have hdata : r.data.map charToLower = ['a'] := by
    have := congrArg String.data h
    simpa [stringToLower] using this
  cases hr : r.data with
  | nil => rw [hr] at hdata; simp at hdata
  | cons c rest =>
    rw [hr] at hdata
    simp only [List.map_cons, List.cons.injEq] at hdata
    obtain ⟨hc, hrest⟩ := hdata
    have : rest = [] := List.map_eq_nil_iff.mp hrest
    exact ⟨c, by rw [this], hc⟩

theorem stringToLower_eq_all {r : String} (h : stringToLower r = "all") :
    ∃ c rest, r.data = c :: rest ∧ charToLower c = 'a' := by
  have hdata : r.data.map charToLower = ['a', 'l', 'l'] := by
    have := congrArg String.data h
    simpa [stringToLower] using this
  cases hr : r.data with
  | nil => rw [hr] at hdata; simp at hdata
  | cons c rest =>
    rw [hr] at hdata
    simp only [List.map_cons, List.cons.injEq] at hdata
    exact ⟨c, rest, rfl, hdata.1⟩

/-! ### Resolution lemmas -/

theorem idxGet_nonneg {α : Type} (l : List α) (i : Int) (h0 : 0 ≤ i) :
    idxGet l i = l.get? i.toNat := by
  unfold idxGet
  by_cases h : i.toNat < l.length
  · rw [dif_pos ⟨h0, h⟩, List.get?_eq_get h]
  · rw [dif_neg (fun hc => h hc.2), Eq.comm, List.get?_eq_none]
    omega

theorem itoa_data_cons (k : Nat) : ∃ c rest, (itoa k).data = c :: rest := by
  cases hd : (itoa k).data with
  | nil =>
    rw [itoa_data] at hd
    exact absurd hd (itoaAux_ne_nil (Nat.lt_succ_self k))
  | cons c rest => exact ⟨c, rest, rfl⟩

theorem resolveAddresses_all {w : List NodeStatus} {r : String}
    (hresp : stringToLower r = "a" ∨ stringToLower r = "all") :
    resolveAddresses w r =
      some ((w.filter (fun s => decide ¬(s.status = MinipoolState.Initialized))).map
        (fun s => s.address)) := by
  obtain ⟨c, rest, hd, hc⟩ : ∃ c rest, r.data = c :: rest ∧ charToLower c = 'a' := by
    rcases hresp with h | h
    · obtain ⟨c, hd, hc⟩ := stringToLower_eq_a h
      exact ⟨c, [], hd, hc⟩
    · exact stringToLower_eq_all h
  simp only [resolveAddresses, hd, if_pos hc]

/-! ### Status-collection lemmas -/

theorem mem_of_getElemOpt {α : Type} {l : List α} {j : Nat} {a : α} (h : l[j]? = some a) :
    a ∈ l := by
  obtain ⟨hl, rfl⟩ := List.getElem?_eq_some_iff.mp h
  exact List.getElem_mem hl

theorem except_map_eq_error {α β : Type} {f : α → β} {x : Except String α} {e : String}
    (h : x.map f = Except.error e) : x = Except.error e := by
  cases x with
  | error e' => simpa [Except.map] using h
  | ok a => simp [Except.map] at h

theorem except_map_eq_ok {α β : Type} {f : α → β} {x : Except String α} {b : β}
    (h : x.map f = Except.ok b) : ∃ a, x = Except.ok a ∧ b = f a := by
  cases x with
  | error e => simp [Except.map] at h
  | ok a =>
    refine ⟨a, rfl, ?_⟩
    simpa [Except.map] using h.symm

theorem exceptErr_eq_some {x : Except String NodeStatus} {e : String} :
    exceptErr x = some e ↔ x = Except.error e := by
  cases x <;> simp [exceptErr]

theorem mem_errPool_iff {get : Address → Except String NodeStatus} {addrs : List Address}
    {e : String} :
    e ∈ errPool get addrs ↔ ∃ a ∈ addrs, get a = Except.error e := by
  simp [errPool, List.mem_filterMap, exceptErr_eq_some]

theorem collectAux_ok_forall2 {get : Address → Except String NodeStatus} {pool : List String}
    {sched : Nat → Option Nat} :
    ∀ {addrs : List Address} {mi : Nat} {l : List NodeStatus},
      collectAux get pool sched mi addrs = Except.ok l →
      List.Forall₂ (fun a s => get a = Except.ok s) addrs l := by
  intro addrs
  induction addrs with
  | nil =>
    intro mi l h
    simp only [collectAux] at h
    cases h
    exact List.Forall₂.nil
  | cons a rest ih =>
    intro mi l h
    simp only [collectAux] at h
    split at h
    · split at h <;> simp at h
    · rename_i s hg
      split at h
      · split at h
        · simp at h
        · obtain ⟨l', hrec, hl⟩ := except_map_eq_ok h
          subst hl
          exact List.Forall₂.cons hg (ih hrec)
      · obtain ⟨l', hrec, hl⟩ := except_map_eq_ok h
        subst hl
        exact List.Forall₂.cons hg (ih hrec)

theorem errPool_eq_nil {get : Address → Except String NodeStatus}
    {addrs : List Address} {l : List NodeStatus}
    (h : List.Forall₂ (fun a s => get a = Except.ok s) addrs l) :
    errPool get addrs = [] := by
  induction h with
  | nil => rfl
  | cons hg _ ih =>
    simp only [errPool, List.filterMap_cons, hg, exceptErr] at ih ⊢
    exact ih

theorem collectAux_ok_of_forall2 {get : Address → Except String NodeStatus}
    {sched : Nat → Option Nat} {addrs : List Address} {l : List NodeStatus}
    (h : List.Forall₂ (fun a s => get a = Except.ok s) addrs l) :
    ∀ mi, collectAux get [] sched mi addrs = Except.ok l := by
  induction h with
  | nil => intro mi; rfl
  | cons hg _ ih =>
    intro mi
    rename_i a s l1 l2
    simp only [collectAux, hg]
    cases sched mi with
    | none => simp [ih (mi + 1), Except.map]
    | some j => simp [List.getElem?_nil, ih (mi + 1), Except.map]

theorem collectAux_error_sources {get : Address → Except String NodeStatus} {pool : List String}
    {sched : Nat → Option Nat} :
    ∀ {addrs : List Address} {mi : Nat} {e : String},
      collectAux get pool sched mi addrs = Except.error e →
      e ∈ pool ∨ ∃ a ∈ addrs, get a = Except.error e := by
  intro addrs
  induction addrs with
  | nil => intro mi e h; simp [collectAux] at h
  | cons a rest ih =>
    intro mi e h
    simp only [collectAux] at h
    split at h
    · rename_i e' hg
      split at h
      · rename_i j hs
        cases hp : pool[j]? with
        | some p =>
          rw [hp] at h
          simp only [Option.getD, Except.error.injEq] at h
          subst h
          exact Or.inl (mem_of_getElemOpt hp)
        | none =>
          rw [hp] at h
          simp only [Option.getD, Except.error.injEq] at h
          subst h
          exact Or.inr ⟨a, by simp, hg⟩
      · simp only [Except.error.injEq] at h
        subst h
        exact Or.inr ⟨a, by simp, hg⟩
    · rename_i s hg
      split at h
      · split at h
        · rename_i p hp
          simp only [Except.error.injEq] at h
          subst h
          exact Or.inl (mem_of_getElemOpt hp)
        · have hrec := except_map_eq_error h
          rcases ih hrec with hl | ⟨a', ha', hga'⟩
          · exact Or.inl hl
          · exact Or.inr ⟨a', by simp [ha'], hga'⟩
      · have hrec := except_map_eq_error h
        rcases ih hrec with hl | ⟨a', ha', hga'⟩
        · exact Or.inl hl
        · exact Or.inr ⟨a', by simp [ha'], hga'⟩

theorem collectAux_error_exists {get : Address → Except String NodeStatus} {pool : List String}
    {sched : Nat → Option Nat} :
    ∀ {addrs : List Address} (mi : Nat),
      (∃ a ∈ addrs, ∃ e, get a = Except.error e) →
      ∃ e', collectAux get pool sched mi addrs = Except.error e' := by
  intro addrs
  induction addrs with
  | nil => intro mi h; simp at h
  | cons a rest ih =>
    intro mi h
    cases hg : get a with
    | error e =>
      cases hs : sched mi with
      | some j => exact ⟨(pool.get? j).getD e, by simp [collectAux, hg, hs]⟩
      | none => exact ⟨e, by simp [collectAux, hg, hs]⟩
    | ok s =>
      have hrest : ∃ a' ∈ rest, ∃ e, get a' = Except.error e := by
        rcases h with ⟨a', ha', e, hga'⟩
        rcases List.mem_cons.mp ha' with rfl | hmem
        · rw [hg] at hga'; simp at hga'
        · exact ⟨a', hmem, e, hga'⟩
      obtain ⟨e', hrec⟩ := ih (mi + 1) hrest
      cases hs : sched mi with
      | some j =>
        cases hp : pool[j]? with
        | some p => exact ⟨p, by simp [collectAux, hg, hs, hp]⟩
        | none => exact ⟨e', by simp [collectAux, hg, hs, hp, hrec, Except.map]⟩
      | none => exact ⟨e', by simp [collectAux, hg, hs, hrec, Except.map]⟩

/-! ### Transaction-loop and aggregation lemmas -/

theorem txLoop_enumFrom {T R : Type} (env : Env T R) :
    ∀ (addrs : List Address) (mi : Nat),
      txLoop env mi addrs = (addrs.enumFrom mi).map (fun p => processAddress env p.1 p.2) := by
  intro addrs
  induction addrs with
  | nil => intro mi; rfl
  | cons a rest ih =>
    intro mi
    simp [txLoop, List.enumFrom_cons, ih (mi + 1)]

theorem outcomeAddr_processAddress {T R : Type} (env : Env T R) (mi : Nat) (addr : Address) :
    outcomeAddr (processAddress env mi addr) = addr := by
  cases h1 : env.getTransactor mi with
  | error e => simp [processAddress, h1, outcomeAddr]
  | ok t =>
    cases h2 : env.executeTx t addr with
    | error e => simp [processAddress, h1, h2, outcomeAddr]
    | ok r =>
      cases h3 : env.getEvents r addr with
      | error e => simp [processAddress, h1, h2, h3, outcomeAddr]
      | ok evs => cases evs <;> simp [processAddress, h1, h2, h3, outcomeAddr]

theorem withdrawErrorsAux_eq {T R : Type} (env : Env T R) :
    ∀ (addrs : List Address) (mi : Nat) (errs : List String),
      withdrawErrorsAux env mi addrs errs =
        errs ++ (txLoop env mi addrs).filterMap outcomeError := by
  intro addrs
  induction addrs with
  | nil => intro mi errs; simp [withdrawErrorsAux, txLoop]
  | cons a rest ih =>
    intro mi errs
    simp only [withdrawErrorsAux, txLoop, List.filterMap_cons]
    cases ho : outcomeError (processAddress env mi a) with
    | some m => simp [ih (mi + 1) (errs ++ [m])]
    | none => simp [ih (mi + 1) errs]

theorem runTxPhase_eq {T R : Type} (env : Env T R) (addrs : List Address) :
    runTxPhase env addrs =
      (if (txLoop env 0 addrs).filterMap outcomeError = [] then Except.ok ()
       else Except.error (String.intercalate "\n"
          (withdrawErrorsHeader :: (txLoop env 0 addrs).filterMap outcomeError))) := by
  simp only [runTxPhase, withdrawErrorsAux_eq, List.singleton_append]
  by_cases hF : (txLoop env 0 addrs).filterMap outcomeError = []
  · rw [if_pos hF, hF]
    simp
  · rw [if_neg hF, if_pos]
    simp only [List.length_cons]
    have := List.length_pos.mpr hF
    omega

/-! ### Whole-flow reduction lemma -/

theorem withdrawMinipool_reach {T R : Type} {env : Env T R} {addrs : List Address}
    {statuses : List NodeStatus}
    (h1 : env.withdrawalsAllowed = Except.ok true)
    (h2 : env.minipoolAddresses = Except.ok addrs)
    (h3 : collectStatuses env.getNodeStatus env.sched addrs = Except.ok statuses) :
    withdrawMinipool env = selectionPhase env statuses := by
  simp [withdrawMinipool, h1, h2, h3]

/-- Shared resolution lemma for a numeric response: on response `itoa k`
with `1 ≤ k ≤ length w`, resolution selects exactly the k-th filtered item,
1-based. -/
theorem resolveAddresses_numeric (w : List NodeStatus) (k : Nat)
    (h1 : 1 ≤ k) (h2 : k ≤ w.length) :
    ∃ s, w.get? (k - 1) = some s ∧ resolveAddresses w (itoa k) = some [s.address] := by
  have hk1 : k - 1 < w.length := by omega
  refine ⟨w.get ⟨k - 1, hk1⟩, List.get?_eq_get hk1, ?_⟩
  obtain ⟨c, rest, hd⟩ := itoa_data_cons k
  simp only [resolveAddresses, hd]
  rw [if_neg (charToLower_digit_ne_a (itoa_head_digit hd)), goAtoi_itoa,
    idxGet_nonneg w _ (by omega)]
  have hidx : ((k : Int) - 1).toNat = k - 1 := by omega
  rw [hidx, List.get?_eq_get hk1]

/-! ### Concrete fixtures used by the witnesses -/

/-- A base environment: withdrawals enabled, no minipools, trivial
transaction oracles. -/
def unitEnv : Env Unit Unit :=
  ⟨Except.ok true, Except.ok [], fun _ => Except.error "no status oracle", fun _ => none,
    "A", fun _ => Except.ok (), fun _ _ => Except.ok (), fun _ _ => Except.ok []⟩

/-- An eligible but Initialized status. -/
def stInit : NodeStatus := ⟨1, MinipoolState.Initialized, "initialized", true⟩

/-- An eligible Withdrawn status. -/
def stWd : NodeStatus := ⟨2, MinipoolState.Withdrawn, "withdrawn", true⟩

/-- Environment whose only minipool reports an Initialized status. -/
def envInit : Env Unit Unit :=
  { unitEnv with minipoolAddresses := Except.ok [1], getNodeStatus := fun _ => Except.ok stInit }

/-- Environment with the eligibility query disabled. -/
def envDisabled : Env Unit Unit := { unitEnv with withdrawalsAllowed := Except.ok false }

/-- Environment whose eligibility query fails. -/
def envGateErr : Env Unit Unit := { unitEnv with withdrawalsAllowed := Except.error "boom" }

/-- A status oracle that fails on every address. -/
def gBoom : Address → Except String NodeStatus := fun _ => Except.error "boom"

/-- The scheduler that never diverts a successful iteration to the error
channel. -/
def schedNone : Nat → Option Nat := fun _ => none

/-! ### Claim theorems -/

/-- C1: for every input address list, the status-collection phase either
delivers (as `Except.ok`) exactly one status per input address, pointwise
the result of that address's query and in input order - this holds for
every scheduler, i.e. regardless of the completion order of the concurrent
queries - or returns an error, in which case (by the `Except` shape) no
partial result list is delivered to later phases; on the empty input it
delivers the empty sequence with no error. -/
theorem statusCollector_spec (get : Address → Except String NodeStatus)
    (sched : Nat → Option Nat) (addrs : List Address) :
    (∀ l, collectStatuses get sched addrs = Except.ok l ↔
        List.Forall₂ (fun a s => get a = Except.ok s) addrs l)
    ∧ collectStatuses get sched [] = Except.ok [] := by
  constructor
  · intro l
    constructor
    · exact fun h => collectAux_ok_forall2 h
    · intro hf
      show collectAux get (errPool get addrs) sched 0 addrs = Except.ok l
      rw [errPool_eq_nil hf]
      exact collectAux_ok_of_forall2 hf 0
  · rfl

/-- C2: a collected status is placed in the withdrawable (filtered) set iff
its `depositExists` field is true and its lifecycle status is Initialized,
Withdrawn or TimedOut (withdraw.go line 84); statuses failing the predicate
never enter the set from which selection (and hence withdrawal) draws. -/
theorem withdrawalEligibility_spec (sts : List NodeStatus) (s : NodeStatus) :
    s ∈ filterWithdrawable sts ↔
      s ∈ sts ∧ s.depositExists = true ∧
        (s.status = MinipoolState.Initialized ∨ s.status = MinipoolState.Withdrawn ∨
          s.status = MinipoolState.TimedOut) := by
  simp only [filterWithdrawable, List.mem_filter, isWithdrawable, decide_eq_true_eq]
  tauto

/-- C3: when the accepted response is the all-token (any case variant of
"a" or "all", which is exactly what the `(?i)` pattern of line 105 admits
beyond the numeric options), the resolved list is exactly the addresses of
the filtered statuses whose state is not Initialized, in filtered order
(lines 109-114); and when that resolved list is empty the operation
terminates successfully with the "No minipools to withdraw" message and
zero outcomes (lines 122-125). -/
theorem allSelection_spec {T R : Type} (env : Env T R) (addrs : List Address)
    (statuses : List NodeStatus)
    (h1 : env.withdrawalsAllowed = Except.ok true)
    (h2 : env.minipoolAddresses = Except.ok addrs)
    (h3 : collectStatuses env.getNodeStatus env.sched addrs = Except.ok statuses)
    (hne : filterWithdrawable statuses ≠ [])
    (hresp : stringToLower env.response = "a" ∨ stringToLower env.response = "all") :
    resolveAddresses (filterWithdrawable statuses) env.response =
      some (((filterWithdrawable statuses).filter
          (fun s => decide ¬(s.status = MinipoolState.Initialized))).map (fun s => s.address))
    ∧ ((((filterWithdrawable statuses).filter
          (fun s => decide ¬(s.status = MinipoolState.Initialized))).map (fun s => s.address)) = [] →
        withdrawMinipool env = some ⟨["No minipools to withdraw"], [], Except.ok ()⟩) := by
  have hres := resolveAddresses_all (w := filterWithdrawable statuses) hresp
  refine ⟨hres, fun hnil => ?_⟩
  rw [withdrawMinipool_reach h1 h2 h3]
  have hlen : ¬ (filterWithdrawable statuses).length = 0 := by
    simpa [List.length_eq_zero] using hne
  simp only [selectionPhase]
  rw [if_neg hlen, hres, hnil]
  rfl

/-- C3 witness: one Initialized eligible minipool and response "A" - the
resolved list is empty and the run ends successfully with the
"No minipools to withdraw" message. -/
theorem allSelection_witness :
    resolveAddresses (filterWithdrawable [stInit]) "A" = some [] ∧
    withdrawMinipool envInit = some ⟨["No minipools to withdraw"], [], Except.ok ()⟩ := by
  have h := allSelection_spec envInit [1] [stInit] rfl rfl rfl (by decide) (Or.inl (by decide))
  exact ⟨h.1, h.2 (by decide)⟩

/-- C4: the transaction loop produces exactly one outcome per resolved
address, in list order, the outcome at position `i` being the result of
processing address `i` alone (so a failure recorded for one address never
aborts or alters the remaining iterations), and every outcome is recorded
against its own address. -/
theorem transactionLoop_spec {T R : Type} (env : Env T R) (addrs : List Address) :
    txLoop env 0 addrs = addrs.enum.map (fun p => processAddress env p.1 p.2)
    ∧ ∀ mi a, outcomeAddr (processAddress env mi a) = a :=
  ⟨txLoop_enumFrom env addrs 0, fun mi a => outcomeAddr_processAddress env mi a⟩

/-- C5: the loop's combined result is an error iff at least one per-address
outcome recorded an error, and in that case the message is exactly the
newline-join of the header with every recorded per-address message (each of
which names its address), not only the first failure. -/
theorem resultAggregator_spec {T R : Type} (env : Env T R) (addrs : List Address) :
    runTxPhase env addrs =
      (if (txLoop env 0 addrs).filterMap outcomeError = [] then Except.ok ()
       else Except.error (String.intercalate "\n"
          (withdrawErrorsHeader :: (txLoop env 0 addrs).filterMap outcomeError)))
    ∧ (¬ runTxPhase env addrs = Except.ok () ↔
        ∃ o ∈ txLoop env 0 addrs, outcomeError o ≠ none) := by
  refine ⟨runTxPhase_eq env addrs, ?_⟩
  rw [runTxPhase_eq env addrs]
  by_cases hF : (txLoop env 0 addrs).filterMap outcomeError = []
  · rw [if_pos hF]
    constructor
    · intro h
      exact absurd rfl h
    · rintro ⟨o, ho, hne⟩ _
      exact hne (List.filterMap_eq_nil_iff.mp hF o ho)
  · rw [if_neg hF]
    constructor
    · intro _
      by_contra hno
      push_neg at hno
      exact hF (List.filterMap_eq_nil_iff.mpr hno)
    · intro _ h
      exact Except.noConfusion h

/-- C6 (amended): if any single status query fails, the operation fails as
a whole and the returned error is the underlying error of one of the
failing queries, returned unwrapped (withdraw.go line 88 is `return err`);
which failing query's error is returned depends on the scheduler. -/
theorem collectFailure_unwrapped (get : Address → Except String NodeStatus)
    (sched : Nat → Option Nat) (addrs : List Address)
    (h : ∃ a ∈ addrs, ∃ e0, get a = Except.error e0) :
    ∃ e, collectStatuses get sched addrs = Except.error e ∧
      ∃ a ∈ addrs, get a = Except.error e := by
  obtain ⟨e', hrun⟩ := @collectAux_error_exists get (errPool get addrs) sched addrs 0 h
  refine ⟨e', hrun, ?_⟩
  rcases collectAux_error_sources hrun with hp | hr
  · exact mem_errPool_iff.mp hp
  · exact hr

/-- C6 witness: with a single address whose query fails with "boom", the
collection phase fails and the returned error is a failing query's own
error. -/
theorem collectFailure_witness :
    collectStatuses gBoom schedNone [0] = Except.error "boom" := by
  obtain ⟨e, hrun, a, ha, hga⟩ :=
    collectFailure_unwrapped gBoom schedNone [0] ⟨0, by simp, "boom", rfl⟩
  have he : e = "boom" := by
    simp only [gBoom, Except.error.injEq] at hga
    exact hga.symm
  rw [he] at hrun
  exact hrun

/-- C6 counterexample: the claim says the returned error is a
`StatusFetchError` *wrapping* the first query error rather than the
underlying error returned unwrapped; but on a failing query with error
"boom" the collection phase returns exactly `Except.error "boom"` - the
underlying error itself - and no non-empty wrapper prefix exists. -/
theorem collectFailure_counterexample :
    collectStatuses gBoom schedNone [0] = Except.error "boom" ∧
    ¬ ∃ wrap : String, wrap ≠ "" ∧
        collectStatuses gBoom schedNone [0] = Except.error (wrap ++ "boom") := by
  refine ⟨rfl, ?_⟩
  rintro ⟨wrap, hne, heq⟩
  have hrun : collectStatuses gBoom schedNone [0] = Except.error "boom" := rfl
  rw [hrun] at heq
  have hstr : ("boom" : String) = wrap ++ "boom" := by
    injection heq
  have hd2 : (wrap ++ "boom").data = wrap.data ++ ("boom" : String).data := by
    cases wrap
    rfl
  have hd3 : ("boom" : String).data = wrap.data ++ ("boom" : String).data := by
    rw [← hd2]
    exact congrArg String.data hstr
  have hlen : wrap.data.length = 0 := by
    have hle := congrArg List.length hd3
    rw [List.length_append] at hle
    omega
  have hwd : wrap.data = [] := List.eq_nil_of_length_eq_zero hlen
  apply hne
  cases wrap
  rw [show ("" : String) = ⟨[]⟩ from rfl]
  exact congrArg String.mk hwd

/-- C7: when the withdrawals-enabled query returns false the whole run ends
successfully with exactly the single disabled message, zero outcomes and no
error - for every environment, i.e. independent of the status and
transaction oracles, so no status query or transaction is attempted; when
the query itself fails, the run aborts with the wrapped error of line 51. -/
theorem eligibilityGate_spec {T R : Type} (env : Env T R) :
    (env.withdrawalsAllowed = Except.ok false →
      withdrawMinipool env =
        some ⟨["Node withdrawals are currently disabled in Rocket Pool"], [], Except.ok ()⟩)
    ∧ (∀ e, env.withdrawalsAllowed = Except.error e →
      withdrawMinipool env =
        some ⟨[], [], Except.error ("Error checking node withdrawals enabled status: " ++ e)⟩) := by
  constructor
  · intro h
    simp [withdrawMinipool, h]
  · intro e h
    simp [withdrawMinipool, h]

/-- C7 witness: concrete disabled and failing eligibility queries. -/
theorem eligibilityGate_witness :
    withdrawMinipool envDisabled =
      some ⟨["Node withdrawals are currently disabled in Rocket Pool"], [], Except.ok ()⟩ ∧
    withdrawMinipool envGateErr =
      some ⟨[], [], Except.error ("Error checking node withdrawals enabled status: " ++ "boom")⟩ :=
  ⟨(eligibilityGate_spec envDisabled).1 rfl, (eligibilityGate_spec envGateErr).2 "boom" rfl⟩

/-- C8: when no collected status passes the eligibility predicate, the run
terminates with zero outcomes, no error, and exactly the message
"No minipools are currently available for withdrawal" (hence also matching
the test's case-insensitive pattern); the conclusion is independent of the
response and transaction oracles, so no prompt or transaction is
attempted. -/
theorem noneWithdrawable_spec {T R : Type} (env : Env T R) (addrs : List Address)
    (statuses : List NodeStatus)
    (h1 : env.withdrawalsAllowed = Except.ok true)
    (h2 : env.minipoolAddresses = Except.ok addrs)
    (h3 : collectStatuses env.getNodeStatus env.sched addrs = Except.ok statuses)
    (h4 : filterWithdrawable statuses = []) :
    withdrawMinipool env =
      some ⟨["No minipools are currently available for withdrawal"], [], Except.ok ()⟩ := by
  rw [withdrawMinipool_reach h1 h2 h3]
  simp [selectionPhase, h4]

/-- C8 witness: a node with no minipools - collection delivers the empty
list, nothing is withdrawable, and the run prints exactly the message. -/
theorem noneWithdrawable_witness :
    withdrawMinipool unitEnv =
      some ⟨["No minipools are currently available for withdrawal"], [], Except.ok ()⟩ :=
  noneWithdrawable_spec unitEnv [] [] rfl rfl rfl rfl

/-- C9: for every accepted numeric response `k` (the response string is
`itoa k` with `1 ≤ k ≤ n`, exactly the numeric options of the line 105
pattern), resolution yields exactly one address: that of the k-th filtered
item, 1-based, in filtered order. -/
theorem numericSelection_spec (w : List NodeStatus) (k : Nat)
    (h1 : 1 ≤ k) (h2 : k ≤ w.length) :
    ∃ s, w.get? (k - 1) = some s ∧ resolveAddresses w (itoa k) = some [s.address] :=
  resolveAddresses_numeric w k h1 h2

/-- C9 witness: response "1" over a single Withdrawn item selects exactly
that item's address. -/
theorem numericSelection_witness :
    resolveAddresses [stWd] (itoa 1) = some [stWd.address] := by
  obtain ⟨s, hs, hres⟩ := numericSelection_spec [stWd] 1 (by decide) (by decide)
  have heq : stWd = s := by
    simpa using hs
  rw [← heq] at hres
  exact hres

/-- C10: every response accepted by the line 105 validation pattern over a
filtered list of length `n` makes the unguarded operations of lines
109-117 safe: the response is non-empty (so `response[:1]` cannot panic),
resolution does not panic (`isSome`), and when the response does not begin
with an 'a'/'A' it parses by Atoi without error to some `k` with
`1 ≤ k ≤ n`, so `withdrawableMinipools[index-1]` is in bounds. -/
theorem acceptedResponse_safe (w : List NodeStatus) (r : String)
    (h : acceptedResponse w.length r = true) :
    r ≠ "" ∧ (resolveAddresses w r).isSome = true ∧
      ∀ c rest, r.data = c :: rest → charToLower c ≠ 'a' →
        ∃ k : Nat, goAtoiOk r = some (k : Int) ∧ 1 ≤ k ∧ k ≤ w.length := by
  simp only [acceptedResponse, Bool.or_eq_true, List.any_eq_true, decide_eq_true_eq] at h
  rcases h with (⟨i, hi, hr⟩ | hlow) | hlow
  · subst hr
    have hi' : i < w.length := List.mem_range.mp hi
    refine ⟨itoa_ne_empty _, ?_, ?_⟩
    · obtain ⟨s, _, hres⟩ := resolveAddresses_numeric w (i + 1) (by omega) (by omega)
      rw [hres]
      rfl
    · intro c rest _ _
      exact ⟨i + 1, goAtoiOk_itoa (i + 1), by omega, by omega⟩
  · obtain ⟨c0, hd, hc0⟩ := stringToLower_eq_a hlow
    refine ⟨?_, ?_, ?_⟩
    · intro he
      rw [he] at hd
      simp at hd
    · rw [resolveAddresses_all (Or.inl hlow)]
      rfl
    · intro c' rest' hd' hca
      rw [hd] at hd'
      injection hd' with hc1 hc2
      exact absurd (hc1 ▸ hc0) hca
  · obtain ⟨c0, rest0, hd, hc0⟩ := stringToLower_eq_all hlow
    refine ⟨?_, ?_, ?_⟩
    · intro he
      rw [he] at hd
      simp at hd
    · rw [resolveAddresses_all (Or.inr hlow)]
      rfl
    · intro c' rest' hd' hca
      rw [hd] at hd'
      injection hd' with hc1 hc2
      exact absurd (hc1 ▸ hc0) hca

/-- C10 witness: the accepted response "2" over a two-item filtered list is
non-empty and resolves without a panic. -/
theorem acceptedResponse_witness :
    ("2" : String) ≠ "" ∧ (resolveAddresses [stWd, stInit] "2").isSome = true := by
  have h := acceptedResponse_safe [stWd, stInit] "2" (by decide)
  exact ⟨h.1, h.2.1⟩

end Withdraw
